import Mathlib

/-!
Verification of the f1-2025 prediction game's scoring and ranking engine.

The Python source is shallowly embedded: pure functions become Lean
functions, the SQLAlchemy-backed operations become explicit state passing
over a `DBState` record, Python `float` scores are modelled as `ℚ`
(all score arithmetic is sums and one exact division), and Python `list`
becomes `List`.
-/

namespace F1

/-- `calc_distance` from `src/game/distance.py`.  The `for ix, name in
enumerate(point_scorers)` loop with its `try: jy = predicted.index(name)
except ValueError: jy = n` body is embedded as the recursion `distLoop`;
the accumulator starts at index `0`. -/
def distLoop (predicted : List String) (n : ℕ) : ℕ → List String → ℕ
  | _, [] => 0
  | ix, name :: rest =>
      Nat.dist ix (if name ∈ predicted then predicted.indexOf name else n)
        + distLoop predicted n (ix + 1) rest

/-- `calc_distance(predicted_drivers, point_scorers)` from
`src/game/distance.py`: `None` on an empty `point_scorers`, otherwise the
accumulated absolute rank displacement divided by
`sum(max(k, n - k) for k in range(n))`. -/
def calc_distance (predicted_drivers point_scorers : List String) : Option ℚ :=
  if point_scorers.isEmpty then none
  else
    let n := point_scorers.length
    let predicted := predicted_drivers.take n
    let distance := distLoop predicted n 0 point_scorers
    some ((distance : ℚ) / ((((List.range n).map fun k => max k (n - k)).sum : ℕ) : ℚ))

/-- The normalizer actually implemented: `sum(max(k, n - k) for k in range(n))`. -/
def normalizerSum (n : ℕ) : ℕ := (((List.range n).map fun k => max k (n - k)).sum)

/-- The spec's per-index penalty rank: the first index of `name` within the
first `n` entries of `predicted`, or `n` if absent. -/
def specPenaltyIndex (predicted : List String) (n : ℕ) (name : String) : ℕ :=
  (((predicted.take n).indexOf? name).getD n)

/-- The spec's total absolute rank displacement `sum_i |i - j_i|` where
`j_i = specPenaltyIndex predicted n actual[i]`. -/
def specRankDisplacement (predicted actual : List String) : ℕ :=
  ∑ i ∈ Finset.range actual.length,
    Nat.dist i (specPenaltyIndex predicted actual.length (actual.getD i ""))

/-- Modelled from the spec: `src/database/enums.py` is absent from the
source tree; the spec's data model (§3) identifies an event by a
`(name, format)` pair, a race being either a grand prix or a sprint. -/
inductive RaceFormat
  | grand_prix
  | sprint
deriving DecidableEq, Repr

def RaceFormat.str : RaceFormat → String
  | .grand_prix => "grand_prix"
  | .sprint => "sprint"

/-- Modelled from the spec: `src/utils/enums.py` is absent from the source
tree; every mutating call reports success or a specific failure reason
(spec §7). -/
inductive RequestStatus
  | SUCCESS
  | FAILURE
deriving DecidableEq, Repr

/-- `RequestResponse` from `src/web/__init__.py`. -/
structure RequestResponse where
  status : RequestStatus
  message : Option String := none
deriving DecidableEq, Repr

/-- A UTC timestamp (`datetime.now(tz=UTC)`), embedded as a calendar day
plus the seconds elapsed within that day; `.date()` is the `day`
component.  Calendar days are counted as integers. -/
structure UTCDateTime where
  day : ℤ
  secondsOfDay : ℕ
deriving DecidableEq, Repr

def UTCDateTime.date (t : UTCDateTime) : ℤ := t.day

/-- `Driver` from `src/database/entities.py`. -/
structure Driver where
  id : ℕ
  name : String
  country : String
deriving DecidableEq, Repr

/-- `Constructor` from `src/database/entities.py`. -/
structure Constructor where
  id : ℕ
  name : String
deriving DecidableEq, Repr

/-- `Race` from `src/database/entities.py`; the `date` column is named
`race_date` as in `RaceModel` (which aliases it). -/
structure Race where
  id : ℕ
  name : String
  circuit_name : Option String
  circuit_location : Option String
  country : Option String
  race_date : ℤ
  race_format : RaceFormat
deriving DecidableEq, Repr

/-- Modelled from the spec: the `prediction_deadline` attribute that
`make_prediction` reads is missing from `src/database/entities.py`;
spec §4.2 defines `Deadline = eventScheduledDate - 2 days`. -/
def Race.prediction_deadline (r : Race) : ℤ := r.race_date - 2

/-- `Result` from `src/database/entities.py`, with the `points` column
used by `dbops.py` (`Result.points > 0.0`), embedded as `ℚ`. -/
structure Result where
  driver_id : ℕ
  constructor_id : ℕ
  race_id : ℕ
  position : ℕ
  points : ℚ
deriving DecidableEq, Repr

/-- `User` from `src/database/entities.py`; the hashed password bytes are
modelled as a string. -/
structure User where
  id : ℕ
  username : String
  password : String
deriving DecidableEq, Repr

/-- `Prediction` from `src/database/entities.py` (the autoincrement
surrogate `id`, never consulted by any query, is omitted). -/
structure Prediction where
  user_id : ℕ
  race_id : ℕ
  driver_id : ℕ
  prediction_time_utc : UTCDateTime
  position : ℕ
deriving DecidableEq, Repr

/-- The relational store behind `DBOperations`: one list per table. -/
structure DBState where
  constructors : List Constructor
  drivers : List Driver
  races : List Race
  users : List User
  predictions : List Prediction
  results : List Result
deriving DecidableEq, Repr

/-- `_is_suitable_password_string` from `src/utils/auth.py`:
`string.isascii() and len(string) >= MIN_PASSWORD_SIZE` with
`MIN_PASSWORD_SIZE = 8`. -/
def _is_suitable_password_string (s : String) : Bool :=
  s.data.all (fun c => decide (c.toNat < 128)) && decide (8 ≤ s.length)

/-- `hash_password` from `src/utils/auth.py`: PBKDF2-HMAC-SHA256 over a
random salt.  The digest is not translatable, so the hash is abstracted as
an injective encoding: the stored bytes are the password itself.  The
`_is_suitable_password_string` guard is kept as in the source. -/
def hash_password (password : String) : Option String :=
  if _is_suitable_password_string password then some password else none

/-- `is_password_valid` from `src/utils/auth.py`: recomputing the PBKDF2
digest with the stored salt and comparing digests becomes, under the same
injective abstraction, string equality; the suitability guard is kept. -/
def is_password_valid (password : String) (stored_password : String) : Bool :=
  _is_suitable_password_string password && password == stored_password

/-- `ScoreModel` from `src/web/participants/models.py`. -/
structure ScoreModel where
  username : String
  race_name : String
  race_format : RaceFormat
deriving DecidableEq, Repr

/-- `PredictionModel` from `src/web/participants/models.py` (fields only;
its validator is `check_if_driver_list_is_unique` below). -/
structure PredictionModel where
  username : String
  password : String
  race_name : String
  race_format : RaceFormat
  drivers : List String
deriving DecidableEq, Repr

/-- `PredictionModel.check_if_driver_list_is_unique` from
`src/web/participants/models.py`: raises `ValueError` when
`len(set(drivers)) != len(drivers)`; the size of `set(drivers)` is
embedded as `drivers.dedup.length`. -/
def check_if_driver_list_is_unique (drivers : List String) : Except String (List String) :=
  if drivers.dedup.length ≠ drivers.length then Except.error "Driver list is not unique!"
  else Except.ok drivers

/-- `DBOperations._retrieve_user`: `select(User).where(User.username == username)`,
first row. -/
def _retrieve_user (s : DBState) (username : String) : Option User :=
  s.users.find? (fun u => u.username == username)

/-- `DBOperations._retrieve_race`: filter on `(name, race_format)`, first row. -/
def _retrieve_race (s : DBState) (race_name : String) (race_format : RaceFormat) : Option Race :=
  s.races.find? (fun r => r.name == race_name && r.race_format == race_format)

/-- `DBOperations._retrieve_driver`: filter on `name`, first row. -/
def _retrieve_driver (s : DBState) (name : String) : Option Driver :=
  s.drivers.find? (fun d => d.name == name)

/-- `DBOperations._retrieve_predicted_drivers`: the join
`Driver ⋈ Prediction ⋈ User ⋈ Race` filtered on the username and the race
key, ordered by `Prediction.position`, projected to `Driver.name`.  Joins
on the unique `id` keys are embedded as filter plus `find?` lookups. -/
def _retrieve_predicted_drivers (s : DBState) (username race_name : String)
    (race_format : RaceFormat) : List String :=
  let rows := s.predictions.filter (fun p =>
    s.users.any (fun u => u.id == p.user_id && u.username == username) &&
    s.races.any (fun r => r.id == p.race_id && r.name == race_name &&
      r.race_format == race_format))
  (rows.mergeSort (fun p q => decide (p.position ≤ q.position))).filterMap
    (fun p => (s.drivers.find? (fun d => d.id == p.driver_id)).map (fun d => d.name))

/-- `DBOperations._retrieve_point_scorers`: results of the race with
`Result.points > 0.0`, ordered by `Result.position`, projected to the
driver name. -/
def _retrieve_point_scorers (s : DBState) (race_name : String)
    (race_format : RaceFormat) : List String :=
  let rows := s.results.filter (fun re =>
    s.races.any (fun rc => rc.id == re.race_id && rc.name == race_name &&
      rc.race_format == race_format) &&
    decide ((0 : ℚ) < re.points))
  (rows.mergeSort (fun a b => decide (a.position ≤ b.position))).filterMap
    (fun re => (s.drivers.find? (fun d => d.id == re.driver_id)).map (fun d => d.name))

/-- `DBOperations._retrieve_users`: `select(User)`, all rows. -/
def _retrieve_users (s : DBState) : List User :=
  s.users

/-- `DBOperations.calc_score`: `None` for an unknown race, else
`calc_distance` of the user's predicted order against the point scorers. -/
def calc_score (s : DBState) (request : ScoreModel) : Option ℚ :=
  match _retrieve_race s request.race_name request.race_format with
  | none => none
  | some _ =>
      calc_distance
        (_retrieve_predicted_drivers s request.username request.race_name request.race_format)
        (_retrieve_point_scorers s request.race_name request.race_format)

/-- `DBOperations.get_races`: `select(Race).order_by(Race.race_date)`. -/
def get_races (s : DBState) : List Race :=
  s.races.mergeSort (fun a b => decide (a.race_date ≤ b.race_date))

/-- `DBOperations.calc_total_score`: collect the non-`None` per-race
scores; `None` when that collection is empty, else its sum. -/
def calc_total_score (s : DBState) (username : String) : Option ℚ :=
  let scores := (get_races s).filterMap
    (fun race => calc_score s ⟨username, race.name, race.race_format⟩)
  if scores.isEmpty then none else some scores.sum

/-- `DBOperations.get_standings`: pair each user with a defined total
score, then `sorted(scores, key=lambda x: x[1])`. -/
def get_standings (s : DBState) : List (String × ℚ) :=
  let scores := (_retrieve_users s).filterMap
    (fun user => (calc_total_score s user.username).map (fun score => (user.username, score)))
  scores.mergeSort (fun a b => decide (a.2 ≤ b.2))

/-- The entity-building loop of `make_prediction`
(`for ix, driver_name in enumerate(prediction.drivers, start=1)`): stops
at the first unknown driver name, otherwise yields one `Prediction` row
per name with 1-based positions and the single timestamp `now`. -/
def buildPredictionRows (s : DBState) (user : User) (race : Race) (now : UTCDateTime) :
    ℕ → List String → Except String (List Prediction)
  | _, [] => Except.ok []
  | ix, driver_name :: rest =>
      match _retrieve_driver s driver_name with
      | none => Except.error driver_name
      | some driver =>
          match buildPredictionRows s user race now (ix + 1) rest with
          | Except.error e => Except.error e
          | Except.ok entities => Except.ok (⟨user.id, race.id, driver.id, now, ix⟩ :: entities)

def predictionKey (p : Prediction) : ℕ × ℕ × ℕ := (p.user_id, p.race_id, p.driver_id)

/-- The `UniqueConstraint("user_id", "race_id", "driver_id")` on the
`prediction` table: committing the batch raises `IntegrityError` exactly
when a new row collides with an existing row or with another row of the
same batch. -/
def predictionInsertOk (s : DBState) (rows : List Prediction) : Bool :=
  decide ((rows.map predictionKey).Nodup) &&
    rows.all (fun p => !(s.predictions.any (fun q => predictionKey p == predictionKey q)))

/-- `DBOperations.make_prediction` from `src/game/dbops.py`.  The session
is the explicit `DBState`; `datetime.now(tz=UTC)` is the parameter `now`;
`commit` either appends the whole batch or (on `IntegrityError`) rolls
back, leaving the state unchanged. -/
def make_prediction (s : DBState) (now : UTCDateTime) (prediction : PredictionModel) :
    RequestResponse × DBState :=
  match _retrieve_user s prediction.username with
  | none =>
      (⟨RequestStatus.FAILURE,
        some ("User(username=" ++ prediction.username ++ ") is not found.")⟩, s)
  | some user_entity =>
      if ¬ is_password_valid prediction.password user_entity.password then
        (⟨RequestStatus.FAILURE,
          some ("Failed to authenticate User(username=" ++ prediction.username ++ ").")⟩, s)
      else
        match _retrieve_race s prediction.race_name prediction.race_format with
        | none =>
            (⟨RequestStatus.FAILURE,
              some ("Race(name=" ++ prediction.race_name ++ ", format=" ++
                prediction.race_format.str ++ ") is not found.")⟩, s)
        | some race_entity =>
            let prediction_time := now
            if race_entity.prediction_deadline < prediction_time.date then
              (⟨RequestStatus.FAILURE,
                some ("Prediction deadline " ++ toString race_entity.prediction_deadline ++
                  " is already passed.")⟩, s)
            else
              match buildPredictionRows s user_entity race_entity prediction_time 1
                  prediction.drivers with
              | Except.error driver_name =>
                  (⟨RequestStatus.FAILURE, some ("Unknown driver " ++ driver_name ++ ".")⟩, s)
              | Except.ok prediction_entities =>
                  if predictionInsertOk s prediction_entities then
                    (⟨RequestStatus.SUCCESS, none⟩,
                      { s with predictions := s.predictions ++ prediction_entities })
                  else
                    (⟨RequestStatus.FAILURE,
                      some "Failed to add predictions, maybe already predicted this race."⟩, s)

/-- The `/make/prediction` route: FastAPI parses the body into
`PredictionModel`, running `check_if_driver_list_is_unique`; a validation
error is returned before `DBOperations.make_prediction` ever runs, so the
store is untouched. -/
def submit_prediction (s : DBState) (now : UTCDateTime) (username password race_name : String)
    (race_format : RaceFormat) (drivers : List String) : RequestResponse × DBState :=
  match check_if_driver_list_is_unique drivers with
  | Except.error msg => (⟨RequestStatus.FAILURE, some msg⟩, s)
  | Except.ok ds => make_prediction s now ⟨username, password, race_name, race_format, ds⟩

/-- A concrete race used by witnesses: the "Monaco" grand prix scheduled
on day 100 (so its prediction deadline is day 98). -/
def exampleRace : Race := ⟨1, "Monaco", none, none, none, 100, RaceFormat.grand_prix⟩

def exampleDriver : Driver := ⟨1, "Max", "NL"⟩

def exampleUser : User := ⟨1, "alice", "password123"⟩

/-- A concrete store: one driver, one race, one user, one point-scoring
result for the race, and no stored predictions. -/
def exampleState : DBState :=
  ⟨[], [exampleDriver], [exampleRace], [exampleUser], [], [⟨1, 1, 1, 1, 10⟩]⟩

/-- A concrete valid submission by `exampleUser` for `exampleRace`. -/
def examplePM : PredictionModel :=
  ⟨"alice", "password123", "Monaco", RaceFormat.grand_prix, ["Max"]⟩

theorem sum_map_range (f : ℕ → ℕ) (n : ℕ) :
    ((List.range n).map f).sum = ∑ i ∈ Finset.range n, f i := by
  induction n with
  | zero => simp
  | succ m ih => simp [List.range_succ, Finset.sum_range_succ, ih]

theorem normalizerSum_eq (n : ℕ) :
    normalizerSum n = ∑ k ∈ Finset.range n, max k (n - k) := by
  unfold normalizerSum
  exact sum_map_range _ n

theorem specPenaltyIndex_eq (p : List String) (n : ℕ) (name : String) :
    specPenaltyIndex p n name =
      if name ∈ p.take n then (p.take n).indexOf name else n := by
  unfold specPenaltyIndex
  by_cases hm : name ∈ p.take n
  · rw [if_pos hm]
    cases hio : (p.take n).indexOf? name with
    | none =>
        rw [List.indexOf?_eq_none_iff] at hio
        exact absurd (by simp) (hio name hm)
    | some j =>
        have h := List.indexOf_eq_indexOf? name (p.take n)
        rw [hio] at h
        simp [hio, h]
  · rw [if_neg hm]
    have h : (p.take n).indexOf? name = none := by
      rw [List.indexOf?_eq_none_iff]
      intro x hx hbeq
      exact hm (by rwa [eq_of_beq hbeq] at hx)
    rw [h]
    rfl

theorem distLoop_eq_sum (p : List String) (n : ℕ) (l : List String) : ∀ ix : ℕ,
    distLoop p n ix l =
      ∑ i ∈ Finset.range l.length,
        Nat.dist (ix + i) (if l.getD i "" ∈ p then p.indexOf (l.getD i "") else n) := by
  induction l with
  | nil => intro ix; simp [distLoop]
  | cons a t ih =>
      intro ix
      rw [distLoop, ih (ix + 1), List.length_cons, Finset.sum_range_succ']
      simp only [List.getD_cons_succ, List.getD_cons_zero]
      rw [add_comm]
      congr 1
      apply Finset.sum_congr rfl
      intro i _
      have h : ix + 1 + i = ix + (i + 1) := by omega
      rw [h]

/-- On a non-empty `actual` the implemented function equals the spec-side
displacement sum divided by the implemented normalizer `Σ max(k, n - k)`. -/
theorem calc_distance_eq_spec_form (predicted actual : List String) (h : actual ≠ []) :
    calc_distance predicted actual =
      some ((specRankDisplacement predicted actual : ℚ) /
        (normalizerSum actual.length : ℚ)) := by
  have hne : actual.isEmpty = false := by
    cases actual with
    | nil => exact absurd rfl h
    | cons a t => rfl
  have key : distLoop (predicted.take actual.length) actual.length 0 actual
      = specRankDisplacement predicted actual := by
    rw [distLoop_eq_sum]
    unfold specRankDisplacement
    apply Finset.sum_congr rfl
    intro i _
    rw [specPenaltyIndex_eq, Nat.zero_add]
  simp only [calc_distance, normalizerSum, hne, Bool.false_eq_true, if_false]
  rw [key]

theorem reverse_distLoop (actual : List String) (hnd : actual.Nodup) :
    distLoop actual.reverse actual.length 0 actual =
      ∑ i ∈ Finset.range actual.length, Nat.dist i (actual.length - 1 - i) := by
  rw [distLoop_eq_sum]
  apply Finset.sum_congr rfl
  intro i hi
  rw [Finset.mem_range] at hi
  rw [Nat.zero_add]
  congr 1
  have hgi : actual.getD i "" = actual[i] := List.getD_eq_getElem _ _ hi
  have hj : actual.length - 1 - i < actual.reverse.length := by
    rw [List.length_reverse]; omega
  have hrev : actual.reverse.get ⟨actual.length - 1 - i, hj⟩ = actual[i] := by
    rw [List.get_eq_getElem, List.getElem_reverse]
    congr 1
    show actual.length - 1 - (actual.length - 1 - i) = i
    omega
  have hmem : actual.getD i "" ∈ actual.reverse := by
    rw [hgi, ← hrev]
    exact List.getElem_mem _
  rw [if_pos hmem, hgi, ← hrev]
  exact List.indexOf_getElem (List.nodup_reverse.2 hnd) _ _

/-- C1 counterexample: on the spec's worked example
`actual = ["A","B","C"]`, `predicted = ["B","A","C"]` the implemented
function does not return `0.4 = 2/5` (it returns `2/7`, because the
implemented normalizer is `Σ max(k, n-k) = 7`, not `Σ max(k, n-1-k) = 5`). -/
theorem c1_spec_normalizer_counterexample :
    calc_distance ["B", "A", "C"] ["A", "B", "C"] ≠ some (2/5) := by
  rw [show calc_distance ["B", "A", "C"] ["A", "B", "C"] = some (2/7) from rfl]
  intro hc
  rw [Option.some_inj] at hc
  norm_num at hc

/-- C1 (amended): for every non-empty `actual` of length `n`,
`calc_distance(predicted, actual)` equals the total absolute rank
displacement `Σ_i |i - j_i|` (with `j_i` the first index of `actual[i]`
within the first `n` entries of `predicted`, or `n` if absent) divided by
the normalizer `Σ_{k=0}^{n-1} max(k, n-k)`; in particular for
`actual = ["A","B","C"]`, `predicted = ["B","A","C"]` the result is `2/7`. -/
theorem c1_distance_eq_displacement_div_normalizer (predicted actual : List String)
    (h : actual ≠ []) :
    calc_distance predicted actual =
      some ((specRankDisplacement predicted actual : ℚ) /
        ((∑ k ∈ Finset.range actual.length, max k (actual.length - k) : ℕ) : ℚ)) ∧
    calc_distance ["B", "A", "C"] ["A", "B", "C"] = some (2/7) := by
  constructor
  · rw [calc_distance_eq_spec_form predicted actual h, normalizerSum_eq]
  · rfl

/-- C1 witness: the amended statement instantiated at
`predicted = ["C","B"]`, `actual = ["A","B","C"]`. -/
theorem c1_distance_witness :
    calc_distance ["C", "B"] ["A", "B", "C"] =
      some ((specRankDisplacement ["C", "B"] ["A", "B", "C"] : ℚ) /
        ((∑ k ∈ Finset.range (["A", "B", "C"] : List String).length,
          max k ((["A", "B", "C"] : List String).length - k) : ℕ) : ℚ)) ∧
    calc_distance ["B", "A", "C"] ["A", "B", "C"] = some (2/7) :=
  c1_distance_eq_displacement_div_normalizer ["C", "B"] ["A", "B", "C"] (by decide)

/-- C2 counterexample: for `actual = ["A","B"]` (distinct, `n = 2`) the fully
reversed prediction scores `2/3`, not `1.0`: the implemented normalizer
`Σ max(k, n-k)` is not attained by pure reversal. -/
theorem c2_reverse_not_maximal_counterexample :
    calc_distance (["A", "B"] : List String).reverse ["A", "B"] ≠ some 1 := by
  rw [show calc_distance (["A", "B"] : List String).reverse ["A", "B"] = some (2/3) from rfl]
  intro hc
  rw [Option.some_inj] at hc
  norm_num at hc

/-- C2 (amended): for every `actual` with `n ≥ 2` distinct entries,
`calc_distance(reverse(actual), actual)` is defined and equals
`(Σ_i |i - (n-1-i)|) / (Σ_k max(k, n-k))`, a value strictly below `1`:
reversal never attains the implemented normalizer. -/
theorem c2_reverse_distance_below_one (actual : List String) (hnd : actual.Nodup)
    (h2 : 2 ≤ actual.length) :
    ∃ q, calc_distance actual.reverse actual = some q ∧
      q = ((∑ i ∈ Finset.range actual.length, Nat.dist i (actual.length - 1 - i) : ℕ) : ℚ) /
          ((normalizerSum actual.length : ℕ) : ℚ) ∧ q < 1 := by
  have hne : actual.isEmpty = false := by
    cases actual with
    | nil => simp at h2
    | cons a t => rfl
  have htake : actual.reverse.take actual.length = actual.reverse := by
    rw [← List.length_reverse]
    exact List.take_length _
  have hsumlt : (∑ i ∈ Finset.range actual.length, Nat.dist i (actual.length - 1 - i))
      < normalizerSum actual.length := by
    rw [normalizerSum_eq]
    apply Finset.sum_lt_sum
    · intro i hi
      rw [Finset.mem_range] at hi
      simp [Nat.dist]
      omega
    · refine ⟨0, Finset.mem_range.2 (by omega), ?_⟩
      simp [Nat.dist]
      omega
  refine ⟨_, ?_, rfl, ?_⟩
  · simp only [calc_distance, hne, Bool.false_eq_true, if_false, htake]
    rw [reverse_distLoop actual hnd]
    rfl
  · rw [div_lt_one]
    · exact_mod_cast hsumlt
    · have hpos : 0 < normalizerSum actual.length := by omega
      exact_mod_cast hpos

/-- C2 witness: the amended statement instantiated at `actual = ["A","B"]`
(the value there is `2/3 < 1`). -/
theorem c2_reverse_witness :
    ∃ q, calc_distance (["A", "B"] : List String).reverse ["A", "B"] = some q ∧
      q = ((∑ i ∈ Finset.range (["A", "B"] : List String).length,
          Nat.dist i ((["A", "B"] : List String).length - 1 - i) : ℕ) : ℚ) /
        ((normalizerSum (["A", "B"] : List String).length : ℕ) : ℚ) ∧ q < 1 :=
  c2_reverse_distance_below_one ["A", "B"] (by decide) (by decide)

/-- C8: for a singleton `actual = [x]`, the result is `0` when the first
predicted name is `x` and `1` otherwise (also when `predicted` is empty),
and the implemented `n = 1` normalizer is `1`, not `0`, so no
division-by-zero occurs. -/
theorem c8_singleton_actual_boundary (predicted : List String) (x : String) :
    calc_distance predicted [x] =
      some (if predicted.head? = some x then 0 else 1) ∧ (normalizerSum 1 : ℚ) ≠ 0 := by
  have hn1 : normalizerSum 1 = 1 := rfl
  constructor
  · have h := calc_distance_eq_spec_form predicted [x] (by simp)
    have hn : ((normalizerSum 1 : ℕ) : ℚ) = 1 := by rw [hn1]; norm_num
    have hs : specRankDisplacement predicted [x]
        = if predicted.head? = some x then 0 else 1 := by
      cases predicted with
      | nil => simp [specRankDisplacement, specPenaltyIndex, Nat.dist]
      | cons p rest =>
          by_cases hpx : p = x
          · subst hpx
            simp [specRankDisplacement, specPenaltyIndex, List.indexOf?_cons, Nat.dist]
          · simp [specRankDisplacement, specPenaltyIndex, List.indexOf?_cons, hpx, Nat.dist]
    rw [show ([x] : List String).length = 1 from rfl] at h
    rw [h, hn, div_one, hs]
    by_cases hh : predicted.head? = some x
    · simp [hh]
    · simp [hh]
  · rw [hn1]
    norm_num

/-- C9: entries of `predicted` at positions `n = len(actual)` and beyond
never affect the result: the function only looks at `predicted[:n]`. -/
theorem c9_truncation_invariance (predicted actual : List String) (_h : actual ≠ []) :
    calc_distance (predicted.take actual.length) actual = calc_distance predicted actual := by
  simp only [calc_distance, List.take_take, min_self]

/-- C9 witness: truncation invariance at a concrete five-entry prediction
against a three-entry actual list. -/
theorem c9_truncation_witness :
    calc_distance (["B", "A", "C", "D", "E"].take (["A", "B", "C"] : List String).length)
        ["A", "B", "C"]
      = calc_distance ["B", "A", "C", "D", "E"] ["A", "B", "C"] :=
  c9_truncation_invariance ["B", "A", "C", "D", "E"] ["A", "B", "C"] (by decide)

theorem mergeSort_short {α : Type} (le : α → α → Bool) (l : List α) (h : l.length ≤ 1) :
    l.mergeSort le = l := by
  match l with
  | [] => simp
  | [a] => simp
  | a :: b :: t => simp at h

theorem calc_distance_nil_predicted (scorers : List String) (h : scorers ≠ []) :
    calc_distance [] scorers =
      some (((∑ i ∈ Finset.range scorers.length, (scorers.length - i) : ℕ) : ℚ) /
        (normalizerSum scorers.length : ℚ)) := by
  have hnat : specRankDisplacement [] scorers =
      ∑ i ∈ Finset.range scorers.length, (scorers.length - i) := by
    unfold specRankDisplacement
    apply Finset.sum_congr rfl
    intro i hi
    rw [Finset.mem_range] at hi
    have hp : specPenaltyIndex ([] : List String) scorers.length (scorers.getD i "") =
        scorers.length := by
      unfold specPenaltyIndex
      simp
    rw [hp]
    simp [Nat.dist]
    omega
  rw [calc_distance_eq_spec_form [] scorers h, hnat]

/-- C3 counterexample: in `exampleState` the race has a recorded scoring
finisher and the user `alice` has no stored prediction, yet `calc_score`
is the defined number `1`, not `None`, and the race is counted in
`calc_total_score alice = some 1`. -/
theorem c3_missing_prediction_counterexample :
    _retrieve_point_scorers exampleState "Monaco" RaceFormat.grand_prix ≠ [] ∧
    _retrieve_predicted_drivers exampleState "alice" "Monaco" RaceFormat.grand_prix = [] ∧
    calc_score exampleState ⟨"alice", "Monaco", RaceFormat.grand_prix⟩ = some 1 ∧
    calc_total_score exampleState "alice" = some 1 := by
  have hps : _retrieve_point_scorers exampleState "Monaco" RaceFormat.grand_prix
      = ["Max"] := by
    unfold _retrieve_point_scorers
    dsimp only
    rw [mergeSort_short _ _ (by decide)]
    decide
  have hpd : _retrieve_predicted_drivers exampleState "alice" "Monaco" RaceFormat.grand_prix
      = [] := by
    unfold _retrieve_predicted_drivers
    dsimp only
    rw [mergeSort_short _ _ (by decide)]
    decide
  have hrace : _retrieve_race exampleState "Monaco" RaceFormat.grand_prix
      = some exampleRace := by
    decide
  have hsc : calc_score exampleState ⟨"alice", "Monaco", RaceFormat.grand_prix⟩
      = some 1 := by
    unfold calc_score
    rw [hrace]
    dsimp only
    rw [hpd, hps]
    rw [show calc_distance [] ["Max"] = some (1/1) from rfl]
    norm_num
  have hgr : get_races exampleState = [exampleRace] := by
    unfold get_races
    rw [mergeSort_short _ _ (by decide)]
    rfl
  have htot : calc_total_score exampleState "alice" = some 1 := by
    unfold calc_total_score
    rw [hgr]
    dsimp only
    simp only [List.filterMap_cons, List.filterMap_nil]
    rw [show exampleRace.name = "Monaco" from rfl,
      show exampleRace.race_format = RaceFormat.grand_prix from rfl, hsc]
    simp
  exact ⟨by rw [hps]; simp, hpd, hsc, htot⟩

/-- C3 (amended): when the event exists and has recorded scoring finishers
but the user has no stored prediction, the per-event score is the defined
number `(Σ_{i<n} (n-i)) / Σ max(k, n-k)` (the empty-prediction penalty),
not `None`, and the event is counted in the user's total, which is then
also defined.  Only an unknown event or an event without scoring
finishers yields "no score". -/
theorem c3_missing_prediction_scored (s : DBState) (username race_name : String)
    (fmt : RaceFormat) (race : Race)
    (hrace : _retrieve_race s race_name fmt = some race)
    (hpred : _retrieve_predicted_drivers s username race_name fmt = [])
    (hscorers : _retrieve_point_scorers s race_name fmt ≠ []) :
    calc_score s ⟨username, race_name, fmt⟩ =
      some (((∑ i ∈ Finset.range (_retrieve_point_scorers s race_name fmt).length,
        ((_retrieve_point_scorers s race_name fmt).length - i) : ℕ) : ℚ) /
        (normalizerSum (_retrieve_point_scorers s race_name fmt).length : ℚ)) ∧
    calc_score s ⟨username, race_name, fmt⟩ ≠ none ∧
    calc_total_score s username ≠ none := by
  have hscore : calc_score s ⟨username, race_name, fmt⟩ =
      some (((∑ i ∈ Finset.range (_retrieve_point_scorers s race_name fmt).length,
        ((_retrieve_point_scorers s race_name fmt).length - i) : ℕ) : ℚ) /
        (normalizerSum (_retrieve_point_scorers s race_name fmt).length : ℚ)) := by
    unfold calc_score
    rw [hrace]
    dsimp only
    rw [hpred]
    exact calc_distance_nil_predicted _ hscorers
  refine ⟨hscore, by simp [hscore], ?_⟩
  have hmem : race ∈ s.races := List.mem_of_find?_eq_some hrace
  have hpred' := List.find?_some hrace
  have hname : race.name = race_name ∧ race.race_format = fmt := by
    simpa using hpred'
  have hmem' : race ∈ get_races s := by
    unfold get_races
    rw [List.mem_mergeSort]
    exact hmem
  have hf : calc_score s ⟨username, race.name, race.race_format⟩ ≠ none := by
    rw [hname.1, hname.2, hscore]
    simp
  unfold calc_total_score
  by_cases he : ((get_races s).filterMap
      (fun r => calc_score s ⟨username, r.name, r.race_format⟩)).isEmpty
  · exfalso
    rw [List.isEmpty_iff] at he
    rw [List.filterMap_eq_nil_iff] at he
    exact hf (he race hmem')
  · simp only [he, Bool.false_eq_true, if_false]
    simp

/-- C3 witness: the amended statement instantiated at `exampleState`,
where the race has one scoring finisher and `alice` has no prediction. -/
theorem c3_missing_prediction_witness :
    calc_score exampleState ⟨"alice", "Monaco", RaceFormat.grand_prix⟩ =
      some (((∑ i ∈ Finset.range
          (_retrieve_point_scorers exampleState "Monaco" RaceFormat.grand_prix).length,
        ((_retrieve_point_scorers exampleState "Monaco" RaceFormat.grand_prix).length - i)
          : ℕ) : ℚ) /
        (normalizerSum
          (_retrieve_point_scorers exampleState "Monaco" RaceFormat.grand_prix).length : ℚ)) ∧
    calc_score exampleState ⟨"alice", "Monaco", RaceFormat.grand_prix⟩ ≠ none ∧
    calc_total_score exampleState "alice" ≠ none :=
  c3_missing_prediction_scored exampleState "alice" "Monaco" RaceFormat.grand_prix exampleRace
    (by decide)
    (by
      unfold _retrieve_predicted_drivers
      dsimp only
      rw [mergeSort_short _ _ (by decide)]
      decide)
    (by
      unfold _retrieve_point_scorers
      dsimp only
      rw [mergeSort_short _ _ (by decide)]
      decide)

theorem buildPredictionRows_total (s : DBState) (user : User) (race : Race)
    (now : UTCDateTime) :
    ∀ (names : List String) (ix : ℕ),
      (∀ name ∈ names, (_retrieve_driver s name).isSome) →
      ∃ rows, buildPredictionRows s user race now ix names = Except.ok rows := by
  intro names
  induction names with
  | nil => intro ix _; exact ⟨[], rfl⟩
  | cons a t ih =>
      intro ix hall
      have ha : (_retrieve_driver s a).isSome := hall a (List.mem_cons_self a t)
      obtain ⟨d, hd⟩ := Option.isSome_iff_exists.1 ha
      obtain ⟨rows, hrows⟩ := ih (ix + 1) (fun name hn => hall name (List.mem_cons_of_mem a hn))
      refine ⟨⟨user.id, race.id, d.id, now, ix⟩ :: rows, ?_⟩
      unfold buildPredictionRows
      rw [hd, hrows]

theorem buildPredictionRows_ok_spec (s : DBState) (user : User) (race : Race)
    (now : UTCDateTime) :
    ∀ (names : List String) (ix : ℕ) (rows : List Prediction),
      buildPredictionRows s user race now ix names = Except.ok rows →
      rows.length = names.length ∧
      ∀ i (hi : i < rows.length),
        (rows.get ⟨i, hi⟩).position = ix + i ∧
        (rows.get ⟨i, hi⟩).prediction_time_utc = now ∧
        (rows.get ⟨i, hi⟩).user_id = user.id ∧
        (rows.get ⟨i, hi⟩).race_id = race.id ∧
        ∃ (hn : i < names.length) (d : Driver),
          _retrieve_driver s (names.get ⟨i, hn⟩) = some d ∧
          (rows.get ⟨i, hi⟩).driver_id = d.id := by
  intro names
  induction names with
  | nil =>
      intro ix rows h
      unfold buildPredictionRows at h
      rw [Except.ok.injEq] at h
      subst h
      exact ⟨rfl, fun i hi => absurd hi (by simp)⟩
  | cons a t ih =>
      intro ix rows h
      unfold buildPredictionRows at h
      cases hd : _retrieve_driver s a with
      | none => rw [hd] at h; exact absurd h (by simp)
      | some d =>
          rw [hd] at h
          cases hr : buildPredictionRows s user race now (ix + 1) t with
          | error e => rw [hr] at h; exact absurd h (by simp)
          | ok rest =>
              rw [hr] at h
              rw [Except.ok.injEq] at h
              subst h
              obtain ⟨hlen, hspec⟩ := ih (ix + 1) rest hr
              refine ⟨by simp [hlen], ?_⟩
              intro i hi
              cases i with
              | zero =>
                  refine ⟨by simp, rfl, rfl, rfl, by simp, d, hd, rfl⟩
              | succ j =>
                  have hj : j < rest.length := by
                    simp at hi
                    omega
                  obtain ⟨hp, ht, hu, hrc, hn, d', hd', hdid⟩ := hspec j hj
                  have hget : (((⟨user.id, race.id, d.id, now, ix⟩ : Prediction) :: rest).get
                      ⟨j + 1, hi⟩) = rest.get ⟨j, hj⟩ := rfl
                  rw [hget]
                  exact ⟨by rw [hp]; omega, ht, hu, hrc, by simpa using hn, d', hd', hdid⟩

/-- C4: with a known user, a valid password, a known race, known drivers
and no uniqueness conflict, `make_prediction` succeeds exactly when the
UTC submission date is at most the deadline (the scheduled date minus 2
days); strictly after it, the call fails with a message naming the
computed deadline and leaves the store unchanged. -/
theorem c4_deadline_gate (s : DBState) (now : UTCDateTime) (pm : PredictionModel)
    (user : User) (race : Race)
    (huser : _retrieve_user s pm.username = some user)
    (hpw : is_password_valid pm.password user.password = true)
    (hrace : _retrieve_race s pm.race_name pm.race_format = some race)
    (hdrivers : ∀ name ∈ pm.drivers, (_retrieve_driver s name).isSome)
    (hinsert : ∀ rows, buildPredictionRows s user race now 1 pm.drivers = Except.ok rows →
        predictionInsertOk s rows = true) :
    race.prediction_deadline = race.race_date - 2 ∧
    ((make_prediction s now pm).1.status = RequestStatus.SUCCESS ↔
      now.date ≤ race.prediction_deadline) ∧
    (race.prediction_deadline < now.date →
      (make_prediction s now pm).1 = ⟨RequestStatus.FAILURE,
        some ("Prediction deadline " ++ toString race.prediction_deadline ++
          " is already passed.")⟩ ∧
      (make_prediction s now pm).2 = s) := by
  refine ⟨rfl, ?_⟩
  unfold make_prediction
  simp only [huser, hpw, not_true, if_false, hrace]
  by_cases hd : race.prediction_deadline < now.date
  · rw [if_pos hd]
    refine ⟨?_, fun _ => ⟨rfl, rfl⟩⟩
    simp only [show (RequestStatus.FAILURE = RequestStatus.SUCCESS) = False by simp]
    constructor
    · intro hc
      exact hc.elim
    · intro hle
      omega
  · rw [if_neg hd]
    obtain ⟨rows, hrows⟩ := buildPredictionRows_total s user race now pm.drivers 1 hdrivers
    simp only [hrows, hinsert rows hrows, if_true]
    refine ⟨?_, fun hc => absurd hc hd⟩
    simp only [true_iff]
    omega

/-- C4 witness: `alice` submits on day 97 for the race scheduled on day
100 (deadline day 98), so the submission is accepted. -/
theorem c4_deadline_witness :
    exampleRace.prediction_deadline = exampleRace.race_date - 2 ∧
    ((make_prediction exampleState ⟨97, 0⟩ examplePM).1.status = RequestStatus.SUCCESS ↔
      (⟨97, 0⟩ : UTCDateTime).date ≤ exampleRace.prediction_deadline) ∧
    (exampleRace.prediction_deadline < (⟨97, 0⟩ : UTCDateTime).date →
      (make_prediction exampleState ⟨97, 0⟩ examplePM).1 = ⟨RequestStatus.FAILURE,
        some ("Prediction deadline " ++ toString exampleRace.prediction_deadline ++
          " is already passed.")⟩ ∧
      (make_prediction exampleState ⟨97, 0⟩ examplePM).2 = exampleState) :=
  c4_deadline_gate exampleState ⟨97, 0⟩ examplePM exampleUser exampleRace
    (by decide) (by decide) (by decide) (by decide)
    (fun rows h => by
      rw [show buildPredictionRows exampleState exampleUser exampleRace ⟨97, 0⟩ 1
          examplePM.drivers = Except.ok [(⟨1, 1, 1, ⟨97, 0⟩, 1⟩ : Prediction)] from rfl,
        Except.ok.injEq] at h
      subst h
      decide)

/-- C5: a submission whose ordered driver list repeats a name is rejected
by the model validator before `make_prediction` runs: the response is a
failure and the store (in particular the stored predictions) is exactly
the original one. -/
theorem c5_duplicate_driver_rejected (s : DBState) (now : UTCDateTime)
    (username password race_name : String) (fmt : RaceFormat) (drivers : List String)
    (hdup : ¬ drivers.Nodup) :
    (submit_prediction s now username password race_name fmt drivers).1.status
        = RequestStatus.FAILURE ∧
    (submit_prediction s now username password race_name fmt drivers).2 = s := by
  have hlen : drivers.dedup.length ≠ drivers.length := by
    intro hc
    apply hdup
    have hsub : drivers.dedup.Sublist drivers := List.dedup_sublist drivers
    have hdeq : drivers.dedup = drivers := hsub.eq_of_length hc
    rw [← hdeq]
    exact List.nodup_dedup drivers
  unfold submit_prediction check_if_driver_list_is_unique
  rw [if_pos hlen]
  exact ⟨rfl, rfl⟩

/-- C5 witness: submitting `["Max", "Max"]` is rejected and the store is
unchanged. -/
theorem c5_duplicate_witness :
    (submit_prediction exampleState ⟨97, 0⟩ "alice" "password123" "Monaco"
        RaceFormat.grand_prix ["Max", "Max"]).1.status = RequestStatus.FAILURE ∧
    (submit_prediction exampleState ⟨97, 0⟩ "alice" "password123" "Monaco"
        RaceFormat.grand_prix ["Max", "Max"]).2 = exampleState :=
  c5_duplicate_driver_rejected exampleState ⟨97, 0⟩ "alice" "password123" "Monaco"
    RaceFormat.grand_prix ["Max", "Max"] (by decide)

/-- C6: the total is `None` exactly when every known event's per-event
score is undefined (so undefined scores are skipped, never counted as
zero, and a user with no scoreable event gets `None`, not `0.0`); a
defined total is the sum of exactly the defined per-event scores. -/
theorem c6_total_score_skips_undefined (s : DBState) (username : String) :
    (calc_total_score s username = none ↔
      ∀ race ∈ get_races s, calc_score s ⟨username, race.name, race.race_format⟩ = none) ∧
    ∀ q, calc_total_score s username = some q →
      q = ((get_races s).filterMap
        (fun race => calc_score s ⟨username, race.name, race.race_format⟩)).sum ∧
      ∃ race ∈ get_races s, calc_score s ⟨username, race.name, race.race_format⟩ ≠ none := by
  unfold calc_total_score
  constructor
  · constructor
    · intro hnone
      rw [← List.filterMap_eq_nil_iff]
      by_cases he : ((get_races s).filterMap
          (fun race => calc_score s ⟨username, race.name, race.race_format⟩)).isEmpty
      · exact List.isEmpty_iff.1 he
      · simp only [he, Bool.false_eq_true, if_false] at hnone
        exact absurd hnone (by simp)
    · intro hall
      have he : ((get_races s).filterMap
          (fun race => calc_score s ⟨username, race.name, race.race_format⟩)) = [] :=
        List.filterMap_eq_nil_iff.2 hall
      simp [he]
  · intro q hq
    by_cases he : ((get_races s).filterMap
        (fun race => calc_score s ⟨username, race.name, race.race_format⟩)).isEmpty
    · simp only [he, if_true] at hq
      exact absurd hq (by simp)
    · simp only [he, Bool.false_eq_true, if_false, Option.some_inj] at hq
      refine ⟨hq.symm, ?_⟩
      have hne : ((get_races s).filterMap
          (fun race => calc_score s ⟨username, race.name, race.race_format⟩)) ≠ [] := by
        intro hc
        rw [hc] at he
        simp at he
      rw [ne_eq, List.filterMap_eq_nil_iff] at hne
      push_neg at hne
      obtain ⟨race, hmem, hne'⟩ := hne
      exact ⟨race, hmem, hne'⟩

/-- C7: every pair in `get_standings` names a known user whose total score
is defined and equal to the listed score (users with undefined totals are
dropped), and the list is sorted ascending by the score component. -/
theorem c7_standings_defined_sorted (s : DBState) :
    (∀ p ∈ get_standings s,
      (∃ u ∈ _retrieve_users s, u.username = p.1) ∧
      calc_total_score s p.1 = some p.2) ∧
    (get_standings s).Sorted (fun a b => a.2 ≤ b.2) := by
  constructor
  · intro p hp
    unfold get_standings at hp
    rw [List.mem_mergeSort, List.mem_filterMap] at hp
    obtain ⟨u, hu, hmap⟩ := hp
    cases ht : calc_total_score s u.username with
    | none => rw [ht] at hmap; simp at hmap
    | some q =>
        rw [ht] at hmap
        simp only [Option.map_some'] at hmap
        rw [Option.some_inj] at hmap
        subst hmap
        exact ⟨⟨u, hu, rfl⟩, ht⟩
  · unfold get_standings
    have hs := @List.sorted_mergeSort (String × ℚ)
      (fun a b => decide (a.2 ≤ b.2))
      (fun a b c hab hbc => by
        simp only [decide_eq_true_eq] at *
        exact le_trans hab hbc)
      (fun a b => by
        simp only [Bool.or_eq_true, decide_eq_true_eq]
        exact le_total a.2 b.2)
      ((_retrieve_users s).filterMap
        (fun user => (calc_total_score s user.username).map
          (fun score => (user.username, score))))
    dsimp only
    exact List.Pairwise.imp (fun h => by simpa using h) hs

theorem make_prediction_success_eq (s : DBState) (now : UTCDateTime) (pm : PredictionModel)
    (user : User) (race : Race) (rows : List Prediction)
    (hu : _retrieve_user s pm.username = some user)
    (hpw : is_password_valid pm.password user.password = true)
    (hr : _retrieve_race s pm.race_name pm.race_format = some race)
    (hd : ¬ race.prediction_deadline < now.date)
    (hb : buildPredictionRows s user race now 1 pm.drivers = Except.ok rows)
    (hins : predictionInsertOk s rows = true) :
    make_prediction s now pm = (⟨RequestStatus.SUCCESS, none⟩,
      { s with predictions := s.predictions ++ rows }) := by
  unfold make_prediction
  simp only [hu, hpw, hr, hb, hins, hd, not_true, eq_self_iff_true, if_false, if_true]

/-- C10: a successful `make_prediction` call appends to the stored
predictions exactly one row per submitted driver name, in order, each
carrying the 1-based list position, the single timestamp taken at the
start of the call, the user's id, the race's id and the id of the driver
the name resolves to. -/
theorem c10_success_row_shape (s : DBState) (now : UTCDateTime) (pm : PredictionModel)
    (hsucc : (make_prediction s now pm).1.status = RequestStatus.SUCCESS) :
    ∃ (user : User) (race : Race) (rows : List Prediction),
      _retrieve_user s pm.username = some user ∧
      _retrieve_race s pm.race_name pm.race_format = some race ∧
      (make_prediction s now pm).2.predictions = s.predictions ++ rows ∧
      rows.length = pm.drivers.length ∧
      ∀ i (hi : i < rows.length),
        (rows.get ⟨i, hi⟩).position = i + 1 ∧
        (rows.get ⟨i, hi⟩).prediction_time_utc = now ∧
        (rows.get ⟨i, hi⟩).user_id = user.id ∧
        (rows.get ⟨i, hi⟩).race_id = race.id ∧
        ∃ (hn : i < pm.drivers.length) (d : Driver),
          _retrieve_driver s (pm.drivers.get ⟨i, hn⟩) = some d ∧
          (rows.get ⟨i, hi⟩).driver_id = d.id := by
  have hsucc' := hsucc
  unfold make_prediction at hsucc'
  cases hu : _retrieve_user s pm.username with
  | none => rw [hu] at hsucc'; simp at hsucc'
  | some user =>
      rw [hu] at hsucc'
      by_cases hpw : is_password_valid pm.password user.password
      · simp only [hpw, not_true, eq_self_iff_true, if_false] at hsucc'
        cases hr : _retrieve_race s pm.race_name pm.race_format with
        | none => rw [hr] at hsucc'; simp at hsucc'
        | some race =>
            rw [hr] at hsucc'
            by_cases hd : race.prediction_deadline < now.date
            · simp only [hd, if_true] at hsucc'
              simp at hsucc'
            · simp only [hd, if_false] at hsucc'
              cases hb : buildPredictionRows s user race now 1 pm.drivers with
              | error e => rw [hb] at hsucc'; simp at hsucc'
              | ok rows =>
                  rw [hb] at hsucc'
                  by_cases hins : predictionInsertOk s rows
                  · have hEq := make_prediction_success_eq s now pm user race rows
                      hu hpw hr hd hb hins
                    obtain ⟨hlen, hspec⟩ := buildPredictionRows_ok_spec s user race now
                      pm.drivers 1 rows hb
                    refine ⟨user, race, rows, rfl, rfl, by rw [hEq], hlen, ?_⟩
                    intro i hi
                    obtain ⟨hp, ht, huid, hrid, hn, d, hd', hdid⟩ := hspec i hi
                    exact ⟨by rw [hp]; omega, ht, huid, hrid, hn, d, hd', hdid⟩
                  · simp only [Bool.not_eq_true] at hins
                    simp only [hins, Bool.false_eq_true, if_false] at hsucc'
                    simp at hsucc'
      · simp only [Bool.not_eq_true] at hpw
        simp only [hpw, Bool.false_eq_true, not_false_iff, if_true] at hsucc'
        simp at hsucc'

/-- C10 witness: the successful submission of `examplePM` on day 97
instantiates the row-shape statement. -/
theorem c10_success_witness :
    ∃ (user : User) (race : Race) (rows : List Prediction),
      _retrieve_user exampleState examplePM.username = some user ∧
      _retrieve_race exampleState examplePM.race_name examplePM.race_format = some race ∧
      (make_prediction exampleState ⟨97, 0⟩ examplePM).2.predictions
        = exampleState.predictions ++ rows ∧
      rows.length = examplePM.drivers.length ∧
      ∀ i (hi : i < rows.length),
        (rows.get ⟨i, hi⟩).position = i + 1 ∧
        (rows.get ⟨i, hi⟩).prediction_time_utc = ⟨97, 0⟩ ∧
        (rows.get ⟨i, hi⟩).user_id = user.id ∧
        (rows.get ⟨i, hi⟩).race_id = race.id ∧
        ∃ (hn : i < examplePM.drivers.length) (d : Driver),
          _retrieve_driver exampleState (examplePM.drivers.get ⟨i, hn⟩) = some d ∧
          (rows.get ⟨i, hi⟩).driver_id = d.id :=
  c10_success_row_shape exampleState ⟨97, 0⟩ examplePM (by decide)

end F1
